import Mathlib

/-!
Verification of the image catalog ingestion/dedup/reuse pipeline.

Shallow embedding of the Python sources:
  * `src/image_utils.py`  — fingerprinting (content hash, aHash perceptual
    hash, hamming distance, near-duplicate predicate);
  * `src/endpoints.py`    — `upload_image`, `purge_assets`,
    `get_or_create_tenant`;
  * `src/models.py`       — the `Tenant` / `Asset` / `Rendition` rows and the
    unique constraint on `Asset.content_hash`;
  * `src/storage.py`      — the local storage adapter (`save` stores under the
    key and returns the key as the URL, `delete` removes the key);
  * `src/settings.py`     — the configuration constants.

Machine reals: Python computes the aHash pixel mean with float division.
All quantities involved are tiny (a sum of at most 4096 values that are at
most 255, divided by the pixel count), so the comparison `pixel > avg` agrees
with the exact rational comparison modelled here; we embed the mean as `Rat`.

PIL codec operations (image decoding, LANCZOS resampling to the hash grid,
thumbnail resizing and JPEG encoding) are external-library calls, not code of
this repository; they are modelled as an explicit `Env` record of functions
that the embedded endpoints consume, exactly at the call boundaries the
Python code uses.
-/

namespace CatalogPipeline

/-! ### Configuration constants (src/settings.py) -/

def MAX_UPLOAD_BYTES : Nat := 10 * 1024 * 1024

def PHASH_SIZE : Nat := 8

def PHASH_HAMMING_THRESHOLD : Nat := 5

def PURGE_CONFIRM_TOKEN : String := "DELETE_CONFIRMED"

/-- `settings.PRESETS`: preset name with its (width, height) box. -/
def PRESETS : List (String × Nat × Nat) :=
  [("thumb", 200, 200), ("card", 600, 400), ("zoom", 1600, 1600)]

/-! ### Hexadecimal rendering and parsing

`format(hash_int, f"0{k}x")` renders a nonnegative integer as lowercase hex,
left-padded with zeros to at least `k` characters, and `int(s, 16)` parses a
hex string.  The renderer is written with an explicit fuel argument (the fuel
`n` always suffices for value `n`) so that it is structurally recursive and
evaluates inside the kernel. -/

def hexDigitChar (n : Nat) : Char :=
  if n < 10 then Char.ofNat (48 + n) else Char.ofNat (87 + n)

def natToHexCore : Nat → Nat → List Char
  | 0, _ => []
  | _ + 1, 0 => []
  | fuel + 1, n + 1 =>
      natToHexCore fuel ((n + 1) / 16) ++ [hexDigitChar ((n + 1) % 16)]

/-- Minimal-length lowercase hex rendering of `n` (`format(n, "x")`). -/
def natToHex (n : Nat) : String :=
  if n = 0 then "0" else String.mk (natToHexCore n n)

/-- Zero left-padding to width `k` (the `0{k}` part of the format spec);
a string already longer than `k` is returned unchanged. -/
def hexPad (k : Nat) (s : String) : String :=
  String.mk (List.replicate (k - s.length) '0' ++ s.data)

/-- Value of one hex digit, lower- or uppercase (as accepted by
`int(-, 16)`); `none` on a non-hex character. -/
def hexDigitVal (c : Char) : Option Nat :=
  if '0' ≤ c ∧ c ≤ '9' then some (c.toNat - 48)
  else if 'a' ≤ c ∧ c ≤ 'f' then some (c.toNat - 87)
  else if 'A' ≤ c ∧ c ≤ 'F' then some (c.toNat - 55)
  else none

def hexStep (acc : Option Nat) (c : Char) : Option Nat :=
  match acc, hexDigitVal c with
  | some a, some v => some (16 * a + v)
  | _, _ => none

/-- `int(s, 16)` on plain hex strings: `none` models the `ValueError` raised
on an empty or non-hex string. -/
def hexToNat? (s : String) : Option Nat :=
  if s.data.isEmpty then none else s.data.foldl hexStep (some 0)

/-! ### Population count

`bin(x).count("1")`, again via structural fuel (`n` is enough fuel for `n`). -/

def popCountCore : Nat → Nat → Nat
  | 0, _ => 0
  | _ + 1, 0 => 0
  | fuel + 1, n + 1 => (n + 1) % 2 + popCountCore fuel ((n + 1) / 2)

def popCount (n : Nat) : Nat := popCountCore n n

/-! ### Perceptual hash (src/image_utils.py, compute_phash lines 39–54)

`compute_phash` resizes the image to `hash_size × hash_size`, converts to
grayscale and then works on the flat row-major pixel list returned by
`getdata()`.  The arithmetic part below takes that pixel list. -/

/-- `avg = sum(pixels) / len(pixels)` (exact rational; see header note). -/
def phashAvg (pixels : List Nat) : Rat :=
  (pixels.sum : Rat) / (pixels.length : Rat)

/-- `1 if pixel > avg else 0` for one pixel. -/
def phashBit (pixels : List Nat) (pixel : Nat) : Nat :=
  if (pixel : Rat) > phashAvg pixels then 1 else 0

/-- `bits.append(1 if pixel > avg else 0)`, in pixel (row-major) order. -/
def phashBits (pixels : List Nat) : List Nat :=
  pixels.map (phashBit pixels)

/-- `hash_int = (hash_int << 1) | bit` folded over the bits. -/
def phashIntOfBits (bits : List Nat) : Nat :=
  bits.foldl (fun acc bit => (acc <<< 1) ||| bit) 0

def phashInt (pixels : List Nat) : Nat := phashIntOfBits (phashBits pixels)

/-- `compute_phash` from the flat resized grayscale pixel list:
`format(hash_int, f"0{hash_size * hash_size // 4}x")`. -/
def compute_phash_pixels (pixels : List Nat) (hash_size : Nat) : String :=
  hexPad (hash_size * hash_size / 4) (natToHex (phashInt pixels))

/-! ### Hamming distance and the near-duplicate predicate -/

/-- `hamming_distance`: parse both hex strings, XOR, count set bits.
`none` models the uncaught `ValueError` from `int(-, 16)`. -/
def hamming_distance (hash1 hash2 : String) : Option Nat :=
  match hexToNat? hash1, hexToNat? hash2 with
  | some int1, some int2 => some (popCount (int1 ^^^ int2))
  | _, _ => none

/-- `is_near_duplicate` with the threshold argument made explicit (the Python
default is `settings.PHASH_HAMMING_THRESHOLD`). -/
def is_near_duplicate (phash1 phash2 : String) (threshold : Nat) : Option Bool :=
  (hamming_distance phash1 phash2).map (fun d => decide (d ≤ threshold))

/-! ### Persistence rows (src/models.py) -/

/-- A row of the `tenants` table. -/
structure TenantRow where
  id : Nat
  name : String
deriving DecidableEq, Repr

/-- A row of the `assets` table. -/
structure AssetRow where
  id : Nat
  tenant_id : Nat
  content_hash : String
  original_filename : String
  original_size_bytes : Nat
  original_width : Nat
  original_height : Nat
  phash : String
  in_use_count : Nat
deriving DecidableEq, Repr

/-- A row of the `renditions` table. -/
structure RenditionRow where
  id : Nat
  asset_id : Nat
  preset : String
  url : String
  size_bytes : Nat
  width : Nat
  height : Nat
  quality : Nat
  phash : String
deriving DecidableEq, Repr

/-- The relational state.  Lists are kept in insertion order; primary keys
are assigned from the monotone `next*Id` counters, so a reachable database
holds each table in ascending-id order (the order in which an
un-`ORDER BY`-ed full-table scan returns rows). -/
structure DB where
  tenants : List TenantRow
  assets : List AssetRow
  renditions : List RenditionRow
  nextTenantId : Nat
  nextAssetId : Nat
  nextRenditionId : Nat
deriving DecidableEq, Repr

/-- The blob store (src/storage.py, `LocalStorageAdapter`): a key-addressed
byte store.  `save` overwrites the key and returns the key itself as the URL
(the local adapter returns the path relative to its base, which is the key);
`delete` removes the key and is idempotent. -/
structure Storage where
  objects : List (String × List Nat)
deriving DecidableEq, Repr

def storageSave (st : Storage) (key : String) (data : List Nat) : String × Storage :=
  (key, ⟨st.objects.filter (fun kv => kv.1 != key) ++ [(key, data)]⟩)

def storageDelete (st : Storage) (url : String) : Storage :=
  ⟨st.objects.filter (fun kv => kv.1 != url)⟩

/-! ### The codec / hashing environment

`upload_image` calls four operations whose bodies live outside this
repository (hashlib's SHA-256 and PIL's decode / resample / thumbnail+JPEG
encode).  They are passed in as an explicit environment, consumed at exactly
the call sites the Python code uses. -/

/-- A decoded PIL image: its reported size plus an opaque payload that the
codec operations consume. -/
structure Image where
  width : Nat
  height : Nat
  payload : List Nat
deriving DecidableEq, Repr

structure Env where
  /-- `hashlib.sha256(data).hexdigest()` (compute_content_hash). -/
  contentHash : List Nat → String
  /-- `PIL.Image.open` (open_image_from_bytes); `none` models the wrapped
  `ValueError` on undecodable bytes (the exception's message text, which the
  endpoint appends to its 400 detail, is not modelled). -/
  decode : List Nat → Option Image
  /-- `image.resize((n, n), LANCZOS).convert("L").getdata()`: the flat
  row-major grayscale pixel list of the resized image (compute_phash
  lines 36–40). -/
  resample : Image → Nat → List Nat
  /-- `generate_rendition_bytes(image, preset, width, height, quality)`:
  thumbnail resize + JPEG encode, returning (bytes, actual_w, actual_h). -/
  genRendition : Image → String → Nat → Nat → Nat → List Nat × Nat × Nat

/-- `compute_phash(image)` at the default `settings.PHASH_SIZE`. -/
def compute_phash (env : Env) (image : Image) : String :=
  compute_phash_pixels (env.resample image PHASH_SIZE) PHASH_SIZE

/-! ### Response schemas (src/schemas.py) -/

structure RenditionOut where
  id : Nat
  preset : String
  url : String
  size_bytes : Nat
  width : Nat
  height : Nat
  quality : Nat
deriving DecidableEq, Repr

structure AssetOut where
  id : Nat
  tenant_id : Nat
  content_hash : String
  original_filename : String
  original_size_bytes : Nat
  original_width : Nat
  original_height : Nat
  in_use_count : Nat
  renditions : List RenditionOut
deriving DecidableEq, Repr

structure PurgeRequest where
  dry_run : Bool
  confirm_token : Option String
deriving DecidableEq, Repr

structure PurgeResponse where
  dry_run : Bool
  candidates : List String
  deleted_count : Nat
deriving DecidableEq, Repr

def renditionOut (r : RenditionRow) : RenditionOut :=
  ⟨r.id, r.preset, r.url, r.size_bytes, r.width, r.height, r.quality⟩

/-- The renditions relationship of an asset, as refreshed before returning. -/
def renditionsOf (db : DB) (assetId : Nat) : List RenditionOut :=
  (db.renditions.filter (fun r => r.asset_id == assetId)).map renditionOut

def mkAssetOut (a : AssetRow) (rends : List RenditionOut) : AssetOut :=
  ⟨a.id, a.tenant_id, a.content_hash, a.original_filename, a.original_size_bytes,
    a.original_width, a.original_height, a.in_use_count, rends⟩

/-! ### Endpoint outcomes

An `Except.error` models an exception escaping the handler body: either an
`HTTPException` raised deliberately (carrying its status code), or an
exception the code does not catch (`ValueError` from `int(-, 16)` /
`open_image_from_bytes`, the database's unique-constraint violation at
commit time, or SQLAlchemy's `MissingGreenlet` from an implicit lazy load on
an async session), which FastAPI surfaces as a server error. -/

inductive UErr where
  | http (statusCode : Nat) (detail : String)
  | valueError (msg : String)
  | integrityError (msg : String)
  | missingGreenlet (msg : String)
deriving DecidableEq, Repr

instance {ε α : Type} [DecidableEq ε] [DecidableEq α] : DecidableEq (Except ε α) :=
  fun x y =>
    match x, y with
    | .ok a, .ok b =>
        if h : a = b then .isTrue (congrArg Except.ok h)
        else .isFalse (fun hc => h (Except.ok.inj hc))
    | .error a, .error b =>
        if h : a = b then .isTrue (congrArg Except.error h)
        else .isFalse (fun hc => h (Except.error.inj hc))
    | .ok _, .error _ => .isFalse (fun hc => Except.noConfusion hc)
    | .error _, .ok _ => .isFalse (fun hc => Except.noConfusion hc)

/-! ### upload_image (src/endpoints.py lines 38–175) -/

/-- `select(Asset).where(Asset.content_hash == content_hash)` +
`scalar_one_or_none()`. -/
def findAssetByHash (db : DB) (ch : String) : Option AssetRow :=
  db.assets.find? (fun a => a.content_hash == ch)

/-- `get_or_create_tenant` (endpoints.py lines 24–35). -/
def get_or_create_tenant (db : DB) (tenant_name : String) : TenantRow × DB :=
  match db.tenants.find? (fun t => t.name == tenant_name) with
  | some t => (t, db)
  | none =>
      let t : TenantRow := ⟨db.nextTenantId, tenant_name⟩
      (t, { db with tenants := db.tenants ++ [t], nextTenantId := db.nextTenantId + 1 })

/-- Appending a committed `Asset` row, consuming one primary key. -/
def insertAssetRow (db : DB) (row : AssetRow) : DB :=
  { db with assets := db.assets ++ [row], nextAssetId := db.nextAssetId + 1 }

/-- Committing the new `Asset` row.  The `content_hash` column is declared
`unique=True` (models.py line 24), so the insert fails at the persistence
layer when a row with the same hash already exists; `upload_image` has no
handler for that failure. -/
def commitNewAsset (db : DB) (row : AssetRow) : Except UErr DB :=
  if db.assets.any (fun a => a.content_hash == row.content_hash) then
    .error (.integrityError "UNIQUE constraint failed: assets.content_hash")
  else
    .ok (insertAssetRow db row)

/-- Appending a committed `Rendition` row, consuming one primary key. -/
def addRendition (db : DB) (rend : RenditionRow) : DB :=
  { db with renditions := db.renditions ++ [rend],
            nextRenditionId := db.nextRenditionId + 1 }

/-- The `for existing_rend in existing_renditions: if is_near_duplicate(...):
reuse; break` scan (endpoints.py lines 121–126).  An invalid stored hex hash
would raise out of `int(-, 16)`. -/
def findFirstNearDup (ph : String) (threshold : Nat) :
    List RenditionRow → Except UErr (Option RenditionRow)
  | [] => .ok none
  | r :: rest =>
      match is_near_duplicate ph r.phash threshold with
      | none => .error (.valueError "invalid literal for int() with base 16")
      | some true => .ok (some r)
      | some false => findFirstNearDup ph threshold rest

/-- The reuse-candidate query + scan for one preset (endpoints.py lines
113–126): all renditions of this preset owned by a different asset, in table
order, first one within the hamming threshold. -/
def findReuseRendition (db : DB) (preset_name : String) (assetId : Nat)
    (ph : String) : Except UErr (Option RenditionRow) :=
  findFirstNearDup ph PHASH_HAMMING_THRESHOLD
    (db.renditions.filter (fun r => r.preset == preset_name && r.asset_id != assetId))

/-- One iteration of the per-preset loop (endpoints.py lines 110–168):
either alias the found rendition's stored fields verbatim, or generate,
hash, store and record a fresh rendition. -/
def processPreset (env : Env) (image : Image) (ph ch : String) (assetId : Nat)
    (preset_name : String) (width height : Nat) (db : DB) (st : Storage) :
    Except UErr (DB × Storage) :=
  match findReuseRendition db preset_name assetId ph with
  | .error e => .error e
  | .ok (some reuse) =>
      let rendition : RenditionRow :=
        { id := db.nextRenditionId, asset_id := assetId, preset := preset_name,
          url := reuse.url, size_bytes := reuse.size_bytes, width := reuse.width,
          height := reuse.height, quality := reuse.quality, phash := reuse.phash }
      let db2 := { db with renditions := db.renditions ++ [rendition],
                           nextRenditionId := db.nextRenditionId + 1 }
      .ok (db2, st)
  | .ok none =>
      let gen := env.genRendition image preset_name width height 85
      let rendition_bytes := gen.1
      let actual_width := gen.2.1
      let actual_height := gen.2.2
      match env.decode rendition_bytes with
      | none => .error (.valueError "Invalid image data")
      | some rendition_image =>
          let rendition_phash := compute_phash env rendition_image
          let storage_key :=
            "renditions/" ++ String.mk (ch.data.take 8) ++ "/" ++ preset_name ++ ".jpg"
          let saved := storageSave st storage_key rendition_bytes
          let rendition : RenditionRow :=
            { id := db.nextRenditionId, asset_id := assetId, preset := preset_name,
              url := saved.1, size_bytes := rendition_bytes.length,
              width := actual_width, height := actual_height, quality := 85,
              phash := rendition_phash }
          let db2 := { db with renditions := db.renditions ++ [rendition],
                               nextRenditionId := db.nextRenditionId + 1 }
          .ok (db2, saved.2)

/-- The whole per-preset loop.  An exception aborts the loop; storage writes
made by earlier iterations survive (they are not transactional), while the
uncommitted rendition rows of this request are rolled back with the session,
which is why the error case surfaces the storage as already advanced but the
database as it stood after the asset commit. -/
def renditionLoop (env : Env) (image : Image) (ph ch : String) (assetId : Nat) :
    List (String × Nat × Nat) → DB → Storage → Except UErr DB × Storage
  | [], db, st => (.ok db, st)
  | (preset_name, width, height) :: rest, db, st =>
      match processPreset env image ph ch assetId preset_name width height db st with
      | .error e => (.error e, st)
      | .ok (db2, st2) => renditionLoop env image ph ch assetId rest db2 st2

/-- The new `Asset` row of endpoints.py lines 92–101. -/
def newAssetRow (ch filename : String) (file_bytes : List Nat) (image : Image)
    (phash : String) (tenant_obj : TenantRow) (db1 : DB) : AssetRow :=
  { id := db1.nextAssetId, tenant_id := tenant_obj.id, content_hash := ch,
    original_filename := filename, original_size_bytes := file_bytes.length,
    original_width := image.width, original_height := image.height,
    phash := phash, in_use_count := 0 }

/-- The fresh-upload path of `upload_image` (decode succeeded, no exact
match): lines 85–175 of endpoints.py. -/
def upload_image_fresh_path (env : Env) (tenant filename : String)
    (file_bytes : List Nat) (ch : String) (image : Image) (db : DB) (st : Storage) :
    Except UErr AssetOut × DB × Storage :=
  let phash := compute_phash env image
  let tenantAnd := get_or_create_tenant db tenant
  let asset := newAssetRow ch filename file_bytes image phash tenantAnd.1 tenantAnd.2
  match commitNewAsset tenantAnd.2 asset with
  | .error e => (.error e, tenantAnd.2, st)
  | .ok db2 =>
      match renditionLoop env image phash ch asset.id PRESETS db2 st with
      | (.error e, st2) => (.error e, db2, st2)
      | (.ok db3, st3) =>
          (.ok (mkAssetOut asset (renditionsOf db3 asset.id)), db3, st3)

/-- `upload_image` after the size check, the content-hash computation and the
exact-match query: `existing` is what that query returned.  Factored out so
that the duplicate-content race (both requests observing `existing = none`
before either commits) can be stated. -/
def upload_image_body (env : Env) (tenant : String) (file_bytes : List Nat)
    (filename : String) (ch : String) (existing : Option AssetRow)
    (db : DB) (st : Storage) : Except UErr AssetOut × DB × Storage :=
  match existing with
  | some existing_asset =>
      (.ok (mkAssetOut existing_asset (renditionsOf db existing_asset.id)), db, st)
  | none =>
      match env.decode file_bytes with
      | none => (.error (.http 400 "Invalid image file"), db, st)
      | some image => upload_image_fresh_path env tenant filename file_bytes ch image db st

/-- `upload_image` (endpoints.py lines 38–175). -/
def upload_image (env : Env) (tenant : String) (file_bytes : List Nat)
    (filename : String) (db : DB) (st : Storage) :
    Except UErr AssetOut × DB × Storage :=
  if MAX_UPLOAD_BYTES < file_bytes.length then
    (.error (.http 413 "File size exceeds maximum of 10485760 bytes"), db, st)
  else
    let content_hash := env.contentHash file_bytes
    upload_image_body env tenant file_bytes filename content_hash
      (findAssetByHash db content_hash) db st

/-! ### purge_assets (src/endpoints.py lines 250–304) -/

/-- Truthiness-and-equality of the confirmation token check
(`not request.confirm_token or request.confirm_token != settings.PURGE_CONFIRM_TOKEN`
means: missing, empty, or different from the configured secret). -/
def validPurgeToken : Option String → Bool
  | none => false
  | some s => s == PURGE_CONFIRM_TOKEN

/-- The candidate deletion loop (endpoints.py lines 286–296).  The first
statement of the loop body, `for rendition in asset.renditions:` (line 288),
reads a default lazy (`lazy="select"`) relationship.  The endpoint's session
is the fresh per-request `AsyncSession` that `get_db` (db.py lines 37–43)
yields, and the candidates were loaded by the plain `select(Asset)` at lines
269–272 with no eager-load option, so each candidate's `renditions`
collection is unloaded; the attribute access therefore attempts an implicit
lazy load, which async SQLAlchemy forbids — it raises `MissingGreenlet`
before any `storage.delete`, `db.delete` or `db.commit` runs.  The
`try/except` at lines 289–292 wraps only `storage.delete`, so the exception
escapes the handler.  Hence the loop errors on the first candidate and never
reaches the best-effort storage deletes, the cascading row delete
(`db.delete(asset)`, cascade of models.py line 34) or the counter
increment; those statements are dead code in the deployed configuration.
(The repository's purge test does not catch this because its fixture shares
one session between the upload and the purge, leaving the collection
preloaded on the identity-mapped instances.) -/
def purgeLoop : List AssetRow → DB → Storage → Nat → Except UErr (DB × Storage × Nat)
  | [], db, st, deleted_count => .ok (db, st, deleted_count)
  | _asset :: _rest, _db, _st, _deleted_count =>
      .error (.missingGreenlet
        "greenlet_spawn has not been called; IO attempted in an unexpected place")

/-- `purge_assets` (endpoints.py lines 250–304).  An escaping exception from
the deletion loop reaches FastAPI before the final `db.commit`, so the
session is rolled back: the database and the storage are returned as they
were. -/
def purge_assets (request : PurgeRequest) (db : DB) (st : Storage) :
    Except UErr PurgeResponse × DB × Storage :=
  if !request.dry_run && !validPurgeToken request.confirm_token then
    (.error (.http 400
      "confirm_token required and must match configured token for destructive operations"),
      db, st)
  else
    let candidates := db.assets.filter (fun a => a.in_use_count == 0)
    let candidate_hashes := candidates.map (fun a => a.content_hash)
    if request.dry_run then
      (.ok ⟨true, candidate_hashes, 0⟩, db, st)
    else
      match purgeLoop candidates db st 0 with
      | .error e => (.error e, db, st)
      | .ok final => (.ok ⟨false, candidate_hashes, final.2.2⟩, final.1, final.2.1)

/-! ### Primary-key invariants of reachable databases

The reuse-scan claim assumes the rendition table is in ascending-id order;
together with the asset-id distinctness this is an invariant of every
database the endpoints can produce, because primary keys are handed out from
the monotone counters.  Both invariants are stated here and proved preserved
by `upload_image` below. -/

/-- Rendition primary keys: every stored id is below the next free id, and
the table is in strictly ascending id order. -/
def rendInvariant (db : DB) : Prop :=
  (∀ r ∈ db.renditions, r.id < db.nextRenditionId) ∧
  db.renditions.Pairwise (fun a b => a.id < b.id)

/-- Asset primary keys: every stored id is below the next free id, and the
id column is duplicate-free. -/
def assetInvariant (db : DB) : Prop :=
  (∀ a ∈ db.assets, a.id < db.nextAssetId) ∧
  (db.assets.map (fun a => a.id)).Nodup

/-! ### Concrete fixtures used to instantiate the theorems -/

/-- A concrete codec environment: a toy byte-level content hash, a decoder
that accepts any nonempty byte string, a resampler that returns a constant
grid, and a rendition generator that echoes the payload. -/
def envW : Env where
  contentHash := fun bytes => String.mk (bytes.map (fun b => hexDigitChar (b % 16)))
  decode := fun bytes => if bytes.isEmpty then none else some ⟨1, 1, bytes⟩
  resample := fun image n => List.replicate (n * n) (image.payload.headD 0)
  genRendition := fun image _pname _w _h _q => (image.payload, 1, 1)

def rendW1 : RenditionRow :=
  ⟨1, 1, "thumb", "renditions/aaaaaaaa/thumb.jpg", 100, 10, 10, 85, "0000000000000003"⟩

def rendW2 : RenditionRow :=
  ⟨2, 2, "thumb", "renditions/bbbbbbbb/thumb.jpg", 50, 8, 8, 85, "0000000000000000"⟩

/-- Two persisted `thumb` renditions: id 1 at hamming distance 2 from the
all-zero hash, id 2 at distance 0. -/
def dbW : DB := ⟨[⟨1, "t1"⟩], [], [rendW1, rendW2], 2, 1, 3⟩

def assetUsed : AssetRow := ⟨1, 1, "hash-used", "a.jpg", 10, 4, 4, "0000000000000000", 2⟩

def assetFree : AssetRow := ⟨2, 1, "hash-free", "b.jpg", 10, 4, 4, "0000000000000000", 0⟩

def rendUsed : RenditionRow := ⟨1, 1, "thumb", "u1", 5, 2, 2, 85, "0000000000000000"⟩

def rendFree : RenditionRow := ⟨2, 2, "thumb", "u2", 5, 2, 2, 85, "0000000000000000"⟩

/-- One referenced asset (counter 2) and one unreferenced asset (counter 0),
each with a rendition. -/
def dbP : DB := ⟨[⟨1, "t1"⟩], [assetUsed, assetFree], [rendUsed, rendFree], 2, 3, 3⟩

def stP : Storage := ⟨[("u1", [1]), ("u2", [2])]⟩

/-- An empty database, as after `create_tables`. -/
def dbE : DB := ⟨[], [], [], 1, 1, 1⟩

def stE : Storage := ⟨[]⟩

/-! ### Basic facts about the hex round trip -/

theorem hexDigitVal_hexDigitChar {d : Nat} (hd : d < 16) :
    hexDigitVal (hexDigitChar d) = some d := by
  interval_cases d <;> decide

theorem hexStep_none (l : List Char) : l.foldl hexStep none = none := by
  induction l with
  | nil => rfl
  | cons c t ih => simpa [hexStep] using ih

theorem natToHexCore_ne_nil (fuel n : Nat) (hn : 0 < n) (hf : 0 < fuel) :
    natToHexCore fuel n ≠ [] := by
  obtain ⟨f, rfl⟩ := Nat.exists_eq_succ_of_ne_zero (Nat.pos_iff_ne_zero.mp hf)
  obtain ⟨m, rfl⟩ := Nat.exists_eq_succ_of_ne_zero (Nat.pos_iff_ne_zero.mp hn)
  simp [natToHexCore]

theorem foldl_hexStep_natToHexCore (fuel : Nat) :
    ∀ n a, n ≤ fuel →
      (natToHexCore fuel n).foldl hexStep (some a) =
        some (a * 16 ^ (natToHexCore fuel n).length + n) := by
  induction fuel with
  | zero =>
      intro n a hn
      interval_cases n
      simp [natToHexCore]
  | succ f ih =>
      intro n a hn
      match n with
      | 0 => simp [natToHexCore]
      | m + 1 =>
          have hdiv : (m + 1) / 16 ≤ f := by
            have h1 : (m + 1) / 16 < m + 1 := Nat.div_lt_self (Nat.succ_pos m) (by omega)
            omega
          have hmod : (m + 1) % 16 < 16 := Nat.mod_lt _ (by omega)
          simp only [natToHexCore, List.foldl_append, ih _ a hdiv, List.length_append,
            List.length_singleton, List.foldl_cons, List.foldl_nil, hexStep,
            hexDigitVal_hexDigitChar hmod]
          have : 16 * (a * 16 ^ (natToHexCore f ((m + 1) / 16)).length + (m + 1) / 16) +
              (m + 1) % 16 =
              a * 16 ^ ((natToHexCore f ((m + 1) / 16)).length + 1) +
                (16 * ((m + 1) / 16) + (m + 1) % 16) := by ring
          rw [this, Nat.div_add_mod (m + 1) 16]

theorem hexToNat?_natToHex (n : Nat) : hexToNat? (natToHex n) = some n := by
  by_cases h0 : n = 0
  · subst h0; decide
  · have hpos : 0 < n := Nat.pos_iff_ne_zero.mpr h0
    have hne := natToHexCore_ne_nil n n hpos hpos
    simp only [natToHex, h0, if_false, hexToNat?, String.mk]
    rw [if_neg (by simpa [List.isEmpty_iff] using hne)]
    simpa using foldl_hexStep_natToHexCore n n 0 le_rfl

theorem foldl_hexStep_replicate_zero (j : Nat) :
    (List.replicate j '0').foldl hexStep (some 0) = some 0 := by
  induction j with
  | zero => rfl
  | succ k ih =>
      have : hexStep (some 0) '0' = some 0 := by decide
      simpa [List.replicate_succ, this] using ih

theorem hexToNat?_hexPad (k : Nat) (s : String) (n : Nat)
    (hs : s.data ≠ []) (h : hexToNat? s = some n) :
    hexToNat? (hexPad k s) = some n := by
  have hlen : (List.replicate (k - s.length) '0' ++ s.data) ≠ [] := by
    simp [hs]
  simp only [hexToNat?, List.isEmpty_iff, if_neg hs] at h
  simp only [hexPad, hexToNat?, String.mk, List.isEmpty_iff, if_neg hlen,
    List.foldl_append, foldl_hexStep_replicate_zero, h]

theorem natToHex_ne_nil (n : Nat) : (natToHex n).data ≠ [] := by
  by_cases h0 : n = 0
  · subst h0; decide
  · have hpos : 0 < n := Nat.pos_iff_ne_zero.mpr h0
    simpa [natToHex, h0, String.mk] using natToHexCore_ne_nil n n hpos hpos

/-- The hex string produced by `compute_phash` parses back to the packed
hash integer: `int(compute_phash(...), 16) == hash_int`. -/
theorem hexToNat?_compute_phash (pixels : List Nat) (hash_size : Nat) :
    hexToNat? (compute_phash_pixels pixels hash_size) = some (phashInt pixels) :=
  hexToNat?_hexPad _ _ _ (natToHex_ne_nil _) (hexToNat?_natToHex _)

/-! ### Length of the rendered hex string -/

theorem natToHexCore_length (fuel : Nat) :
    ∀ n k, n ≤ fuel → n < 16 ^ k → (natToHexCore fuel n).length ≤ k := by
  induction fuel with
  | zero =>
      intro n k hn _
      interval_cases n
      simp [natToHexCore]
  | succ f ih =>
      intro n k hn hk
      match n with
      | 0 => simp [natToHexCore]
      | m + 1 =>
          have hkpos : 0 < k := by
            rcases Nat.eq_zero_or_pos k with h | h
            · subst h; simp at hk
            · exact h
          have hdiv : (m + 1) / 16 ≤ f := by
            have h1 : (m + 1) / 16 < m + 1 := Nat.div_lt_self (Nat.succ_pos m) (by omega)
            omega
          have hdivlt : (m + 1) / 16 < 16 ^ (k - 1) := by
            rw [Nat.div_lt_iff_lt_mul (by omega : 0 < 16)]
            calc m + 1 < 16 ^ k := hk
              _ = 16 ^ (k - 1) * 16 := by
                  rw [← Nat.pow_succ]
                  congr 1
                  omega
          have := ih ((m + 1) / 16) (k - 1) hdiv hdivlt
          simp only [natToHexCore, List.length_append, List.length_singleton]
          omega

theorem hexPad_length (k : Nat) (s : String) :
    (hexPad k s).length = max k s.length := by
  simp only [hexPad, String.mk, String.length, List.length_append, List.length_replicate]
  omega

theorem natToHex_length_le (n k : Nat) (hk : 0 < k) (hn : n < 16 ^ k) :
    (natToHex n).length ≤ k := by
  by_cases h0 : n = 0
  · subst h0
    simpa [natToHex, String.length] using hk
  · simp only [natToHex, h0, if_false, String.length, String.mk]
    exact natToHexCore_length n n k le_rfl hn

/-! ### MSB-first bit packing -/

/-- `2 * acc + bit` form of the shift/or accumulation step, valid because the
freshly shifted-in low bit is clear. -/
theorem shiftLeft_lor_bit (acc bit : Nat) (hb : bit ≤ 1) :
    (acc <<< 1) ||| bit = 2 * acc + bit := by
  have hlt : bit < 2 ^ 1 := by omega
  have h := (Nat.mul_add_lt_is_or hlt acc).symm
  calc (acc <<< 1) ||| bit = (2 ^ 1 * acc) ||| bit := by
        rw [Nat.shiftLeft_eq, Nat.mul_comm, pow_one]
    _ = 2 ^ 1 * acc + bit := h
    _ = 2 * acc + bit := by norm_num

/-- Reference MSB-first value of a bit list. -/
def bitsVal (bits : List Nat) : Nat :=
  bits.foldl (fun acc bit => 2 * acc + bit) 0

theorem foldl_two_mul_acc (l : List Nat) :
    ∀ a, l.foldl (fun acc bit => 2 * acc + bit) a = a * 2 ^ l.length + bitsVal l := by
  induction l with
  | nil => intro a; simp [bitsVal]
  | cons b t ih =>
      intro a
      simp only [List.foldl_cons, List.length_cons, bitsVal]
      rw [ih (2 * a + b), ih (2 * 0 + b)]
      simp only [bitsVal]
      ring

theorem bitsVal_cons (b : Nat) (t : List Nat) :
    bitsVal (b :: t) = b * 2 ^ t.length + bitsVal t := by
  simp only [bitsVal, List.foldl_cons]
  rw [foldl_two_mul_acc t (2 * 0 + b)]
  simp only [bitsVal]
  ring

theorem phashIntOfBits_eq_bitsVal (bits : List Nat) (hb : ∀ b ∈ bits, b ≤ 1) :
    phashIntOfBits bits = bitsVal bits := by
  simp only [phashIntOfBits, bitsVal]
  induction bits with
  | nil => rfl
  | cons b t ih =>
      simp only [List.foldl_cons, shiftLeft_lor_bit 0 b (hb b (by simp))]
      have hfold : ∀ (l : List Nat), (∀ x ∈ l, x ≤ 1) → ∀ a,
          l.foldl (fun acc bit => (acc <<< 1) ||| bit) a =
            l.foldl (fun acc bit => 2 * acc + bit) a := by
        intro l hl
        induction l with
        | nil => intro a; rfl
        | cons c s ihs =>
            intro a
            simp only [List.foldl_cons, shiftLeft_lor_bit a c (hl c (by simp))]
            exact ihs (fun x hx => hl x (by simp [hx])) _
      exact hfold t (fun x hx => hb x (by simp [hx])) _

theorem bitsVal_lt (bits : List Nat) (hb : ∀ b ∈ bits, b ≤ 1) :
    bitsVal bits < 2 ^ bits.length := by
  induction bits with
  | nil => simp [bitsVal]
  | cons b t ih =>
      have h1 : bitsVal t < 2 ^ t.length := ih (fun x hx => hb x (by simp [hx]))
      have h2 : b ≤ 1 := hb b (by simp)
      rw [bitsVal_cons]
      simp only [List.length_cons, pow_succ]
      nlinarith

/-- MSB-first: bit `i` of the list (row-major pixel order) lands at binary
position `L - 1 - i` of the packed integer. -/
theorem bitsVal_testBit (bits : List Nat) (hb : ∀ b ∈ bits, b ≤ 1) :
    ∀ i, i < bits.length →
      Nat.testBit (bitsVal bits) (bits.length - 1 - i) = decide (bits.getD i 0 = 1) := by
  induction bits with
  | nil => intro i hi; simp at hi
  | cons b t ih =>
      intro i hi
      have hbt : bitsVal (b :: t) = 2 ^ t.length * b + bitsVal t := by
        rw [bitsVal_cons]; ring
      have hlt : bitsVal t < 2 ^ t.length := bitsVal_lt t (fun x hx => hb x (by simp [hx]))
      have hb0 : b ≤ 1 := hb b (by simp)
      rw [hbt]
      match i with
      | 0 =>
          simp only [List.length_cons, List.getD_cons_zero, Nat.add_sub_cancel, Nat.sub_zero]
          rw [Nat.testBit_mul_pow_two_add b hlt t.length]
          simp only [lt_irrefl, if_false, Nat.sub_self]
          interval_cases b <;> simp
      | j + 1 =>
          have hj : j < t.length := by simpa [List.length_cons] using hi
          have hpos : (b :: t).length - 1 - (j + 1) = t.length - 1 - j := by
            simp only [List.length_cons]
            omega
          rw [hpos, Nat.testBit_mul_pow_two_add b hlt (t.length - 1 - j)]
          have hcond : t.length - 1 - j < t.length := by omega
          rw [if_pos hcond, List.getD_cons_succ]
          exact ih (fun x hx => hb x (by simp [hx])) j hj

theorem phashBits_le_one (pixels : List Nat) : ∀ b ∈ phashBits pixels, b ≤ 1 := by
  intro b hb
  simp only [phashBits, List.mem_map] at hb
  obtain ⟨p, _, rfl⟩ := hb
  unfold phashBit
  split <;> omega

theorem phashBits_length (pixels : List Nat) :
    (phashBits pixels).length = pixels.length := by
  rw [phashBits]
  exact List.length_map _ _

theorem phashInt_lt (pixels : List Nat) : phashInt pixels < 2 ^ pixels.length := by
  have h := bitsVal_lt (phashBits pixels) (phashBits_le_one pixels)
  rw [phashBits_length] at h
  rw [phashInt, phashIntOfBits_eq_bitsVal _ (phashBits_le_one pixels)]
  exact h

theorem phashBits_getD (pixels : List Nat) (i : Nat) (hi : i < pixels.length) :
    (phashBits pixels).getD i 0 =
      if phashAvg pixels < ((pixels.getD i 0 : Nat) : Rat) then 1 else 0 := by
  have hi2 : i < (phashBits pixels).length := by rw [phashBits_length]; exact hi
  rw [List.getD_eq_getElem _ _ hi2, List.getD_eq_getElem _ _ hi]
  simp only [phashBits, List.getElem_map, phashBit, gt_iff_lt]

theorem phashInt_testBit (pixels : List Nat) (i : Nat) (hi : i < pixels.length) :
    Nat.testBit (phashInt pixels) (pixels.length - 1 - i) =
      decide (phashAvg pixels < ((pixels.getD i 0 : Nat) : Rat)) := by
  have hlen := phashBits_length pixels
  have h := bitsVal_testBit (phashBits pixels) (phashBits_le_one pixels) i (by omega)
  rw [hlen] at h
  rw [phashInt, phashIntOfBits_eq_bitsVal _ (phashBits_le_one pixels), h,
    phashBits_getD pixels i hi]
  by_cases hcmp : phashAvg pixels < ((pixels.getD i 0 : Nat) : Rat)
  · simp [hcmp]
  · simp [hcmp]

/-! ### Constant images -/

theorem phashAvg_replicate (n c : Nat) (hn : 0 < n) :
    phashAvg (List.replicate n c) = (c : Rat) := by
  simp only [phashAvg, List.sum_replicate, smul_eq_mul, List.length_replicate]
  push_cast
  rw [mul_comm, mul_div_assoc, div_self (Nat.cast_ne_zero.mpr (Nat.pos_iff_ne_zero.mp hn)),
    mul_one]

theorem phashBits_replicate (n c : Nat) (hn : 0 < n) :
    phashBits (List.replicate n c) = List.replicate n 0 := by
  unfold phashBits
  rw [List.map_replicate]
  congr 1
  unfold phashBit
  rw [phashAvg_replicate n c hn]
  simp

theorem phashIntOfBits_replicate_zero (n : Nat) :
    phashIntOfBits (List.replicate n 0) = 0 := by
  unfold phashIntOfBits
  induction n with
  | zero => rfl
  | succ k ih =>
      have h0 : ((0 : Nat) <<< 1) ||| 0 = 0 := by decide
      rw [List.replicate_succ, List.foldl_cons, h0]
      exact ih

theorem compute_phash_replicate64 (c : Nat) :
    compute_phash_pixels (List.replicate 64 c) 8 = "0000000000000000" := by
  unfold compute_phash_pixels phashInt
  rw [phashBits_replicate 64 c (by norm_num), phashIntOfBits_replicate_zero]
  decide

/-! ### Claim C10 -/

/-- **C10.** Any image whose 8×8 resized grayscale samples are all equal
(e.g. any solid-color image) gets the all-zeros 16-character hash, so any two
constant-color images — whatever their two colors — are at hamming distance 0
and are classified near-duplicates of each other. -/
theorem claim_C10_constant_images_near_duplicates (c1 c2 : Nat) :
    compute_phash_pixels (List.replicate 64 c1) 8 = "0000000000000000" ∧
    compute_phash_pixels (List.replicate 64 c2) 8 = "0000000000000000" ∧
    hamming_distance (compute_phash_pixels (List.replicate 64 c1) 8)
      (compute_phash_pixels (List.replicate 64 c2) 8) = some 0 ∧
    is_near_duplicate (compute_phash_pixels (List.replicate 64 c1) 8)
      (compute_phash_pixels (List.replicate 64 c2) 8) PHASH_HAMMING_THRESHOLD =
      some true := by
  have h1 := compute_phash_replicate64 c1
  have h2 := compute_phash_replicate64 c2
  refine ⟨h1, h2, ?_, ?_⟩ <;> rw [h1, h2] <;> decide

/-! ### Claim C5 -/

/-- **C5 (amended).** For every pixel grid and every `hashSize` whose square
is divisible by 4 (every even `hashSize`, in particular the default 8 → 16
hex characters), the hash is a hex string of length exactly `hashSize²/4`
encoding the packed bit integer; bits are taken row-major MSB-first (bit `i`
of the grid sits at binary position `hashSize² - 1 - i`), and a bit is 1
exactly when its pixel is strictly greater than the mean, so a pixel equal
to the mean hashes to 0.  (For odd `hashSize` the code pads only to
`⌊hashSize²/4⌋` and the string can be longer — see the counterexample.) -/
theorem claim_C5_phash_format (pixels : List Nat) (n : Nat) (hn : 0 < n)
    (h4 : 4 ∣ n * n) (hlen : pixels.length = n * n) :
    (compute_phash_pixels pixels n).length = n * n / 4 ∧
    hexToNat? (compute_phash_pixels pixels n) = some (phashInt pixels) ∧
    ∀ i, i < n * n →
      Nat.testBit (phashInt pixels) (n * n - 1 - i) =
        decide (phashAvg pixels < ((pixels.getD i 0 : Nat) : Rat)) := by
  obtain ⟨k, hk⟩ := h4
  have hn2 : 2 ≤ n := by
    rcases Nat.lt_or_ge n 2 with h | h
    · interval_cases n
      all_goals omega
    · exact h
  have hk1 : 1 ≤ k := by nlinarith
  refine ⟨?_, hexToNat?_compute_phash pixels n, ?_⟩
  · have hdiv : n * n / 4 = k := by omega
    have hlt : phashInt pixels < 16 ^ k := by
      have h1 := phashInt_lt pixels
      rw [hlen, hk] at h1
      calc phashInt pixels < 2 ^ (4 * k) := h1
        _ = 16 ^ k := by rw [pow_mul]; norm_num
    have hle := natToHex_length_le (phashInt pixels) k hk1 hlt
    rw [compute_phash_pixels, hexPad_length, hdiv]
    omega
  · intro i hi
    have h := phashInt_testBit pixels i (by omega)
    rwa [hlen] at h

/-- Witness for C5 at the concrete grid `[0, 0, 0, 9]` with `hashSize = 2`. -/
theorem claim_C5_phash_format_witness :
    (compute_phash_pixels [0, 0, 0, 9] 2).length = 2 * 2 / 4 ∧
    hexToNat? (compute_phash_pixels [0, 0, 0, 9] 2) = some (phashInt [0, 0, 0, 9]) ∧
    Nat.testBit (phashInt [0, 0, 0, 9]) 0 =
      decide (phashAvg [0, 0, 0, 9] < ((9 : Nat) : Rat)) := by
  have h := claim_C5_phash_format [0, 0, 0, 9] 2 (by norm_num) (by norm_num) (by norm_num)
  refine ⟨h.1, h.2.1, ?_⟩
  have h3 := h.2.2 3 (by norm_num)
  simpa using h3

/-- **C5 (counterexample).** At `hashSize = 3` (a 3×3 grid), the grid of
eight bright pixels and one dark pixel hashes to a 3-character hex string
("1fe"), while `hashSize²/4 = 9/4 = 2`: the length part of the claim fails
for odd hash sizes. -/
theorem claim_C5_counterexample :
    ([255, 255, 255, 255, 255, 255, 255, 255, 0] : List Nat).length = 3 * 3 ∧
    (compute_phash_pixels [255, 255, 255, 255, 255, 255, 255, 255, 0] 3).length = 3 ∧
    3 * 3 / 4 = 2 := by
  refine ⟨by decide, ?_, by decide⟩
  have hbits : phashBits [255, 255, 255, 255, 255, 255, 255, 255, 0] =
      [1, 1, 1, 1, 1, 1, 1, 1, 0] := by
    norm_num [phashBits, phashBit, phashAvg, List.sum_cons]
  simp only [compute_phash_pixels, phashInt, hbits]
  decide

/-! ### Claim C6 -/

/-- **C6 (counterexample).** `hamming_distance` performs no width
validation: on two hashes of different declared bit widths (1 hex char = 4
bits vs 2 hex chars = 8 bits) it does not fail — it parses both and returns
a distance. -/
theorem claim_C6_counterexample :
    "0".length ≠ "00".length ∧ hamming_distance "0" "00" = some 0 :=
  ⟨by decide, by decide⟩

/-- **C6 (amended).** `hamming_distance` parses the two hex strings as
unsigned integers, XORs them and returns the count of set bits; it does this
whenever both strings parse as hex, with no check that the two hashes have
the same declared bit width (it does not fail on mismatched widths).  It is
symmetric and zero on equal inputs. -/
theorem claim_C6_hamming_no_width_check (hash1 hash2 : String) (n1 n2 : Nat)
    (p1 : hexToNat? hash1 = some n1) (p2 : hexToNat? hash2 = some n2) :
    hamming_distance hash1 hash2 = some (popCount (n1 ^^^ n2)) ∧
    hamming_distance hash2 hash1 = hamming_distance hash1 hash2 ∧
    hamming_distance hash1 hash1 = some 0 := by
  refine ⟨?_, ?_, ?_⟩
  · simp [hamming_distance, p1, p2]
  · simp [hamming_distance, p1, p2, Nat.xor_comm]
  · simp only [hamming_distance, p1, Nat.xor_self]
    rfl

/-- Witness for C6 on hashes of different declared widths. -/
theorem claim_C6_hamming_no_width_check_witness :
    hamming_distance "a3" "0" = some (popCount (163 ^^^ 0)) ∧
    hamming_distance "0" "a3" = hamming_distance "a3" "0" ∧
    hamming_distance "a3" "a3" = some 0 :=
  claim_C6_hamming_no_width_check "a3" "0" 163 0 (by decide) (by decide)

/-! ### The reuse-candidate scan -/

theorem is_near_duplicate_ne_none (ph1 ph2 : String) (t : Nat)
    (h1 : (hexToNat? ph1).isSome) (h2 : (hexToNat? ph2).isSome) :
    is_near_duplicate ph1 ph2 t ≠ none := by
  obtain ⟨n1, e1⟩ := Option.isSome_iff_exists.mp h1
  obtain ⟨n2, e2⟩ := Option.isSome_iff_exists.mp h2
  simp [is_near_duplicate, hamming_distance, e1, e2]

theorem is_near_duplicate_iff_le (ph1 ph2 : String) (t d : Nat)
    (hd : hamming_distance ph1 ph2 = some d) :
    is_near_duplicate ph1 ph2 t = some true ↔ d ≤ t := by
  simp [is_near_duplicate, hd]

/-- First-match semantics of the `for ... break` scan over a candidate list
that is sorted by ascending rendition id and whose stored hashes all parse:
the scan succeeds with `r` exactly when `r` is the under-threshold candidate
of least id (no distance minimisation), and returns `none` exactly when no
candidate is under threshold. -/
theorem findFirstNearDup_spec (ph : String) (t : Nat) (l : List RenditionRow)
    (hs : l.Pairwise (fun a b => a.id < b.id))
    (hv : ∀ r ∈ l, is_near_duplicate ph r.phash t ≠ none) :
    (∀ r, findFirstNearDup ph t l = .ok (some r) ↔
        (r ∈ l ∧ is_near_duplicate ph r.phash t = some true ∧
          ∀ r2 ∈ l, is_near_duplicate ph r2.phash t = some true → r.id ≤ r2.id))
    ∧ (findFirstNearDup ph t l = .ok none ↔
        ∀ r ∈ l, is_near_duplicate ph r.phash t = some false) := by
  induction l with
  | nil =>
      constructor
      · intro r
        simp [findFirstNearDup]
      · simp [findFirstNearDup]
  | cons r0 rest ih =>
      have hs0 : ∀ r2 ∈ rest, r0.id < r2.id := (List.pairwise_cons.mp hs).1
      have hsr : rest.Pairwise (fun a b => a.id < b.id) := (List.pairwise_cons.mp hs).2
      have hvr : ∀ r ∈ rest, is_near_duplicate ph r.phash t ≠ none :=
        fun r hr => hv r (List.mem_cons_of_mem _ hr)
      have hv0 := hv r0 (List.mem_cons_self r0 rest)
      obtain ⟨ihA, ihB⟩ := ih hsr hvr
      rcases hnd : is_near_duplicate ph r0.phash t with _ | b
      · exact absurd hnd hv0
      · cases b
        · -- head not under threshold: the scan continues on the tail
          have hstep : findFirstNearDup ph t (r0 :: rest) = findFirstNearDup ph t rest := by
            simp [findFirstNearDup, hnd]
          constructor
          · intro r
            rw [hstep, ihA r]
            constructor
            · rintro ⟨hmem, hdup, hmin⟩
              refine ⟨List.mem_cons_of_mem _ hmem, hdup, ?_⟩
              intro r2 hr2 hdup2
              rcases List.mem_cons.mp hr2 with h | h
              · subst h
                rw [hnd] at hdup2
                cases hdup2
              · exact hmin r2 h hdup2
            · rintro ⟨hmem, hdup, hmin⟩
              rcases List.mem_cons.mp hmem with h | h
              · subst h
                rw [hnd] at hdup
                cases hdup
              · exact ⟨h, hdup, fun r2 hr2 hdup2 => hmin r2 (List.mem_cons_of_mem _ hr2) hdup2⟩
          · rw [hstep, ihB]
            constructor
            · intro hall
              intro r hr
              rcases List.mem_cons.mp hr with h | h
              · subst h; exact hnd
              · exact hall r h
            · intro hall r hr
              exact hall r (List.mem_cons_of_mem _ hr)
        · -- head under threshold: the scan stops here
          have hstep : findFirstNearDup ph t (r0 :: rest) = .ok (some r0) := by
            simp [findFirstNearDup, hnd]
          constructor
          · intro r
            rw [hstep]
            constructor
            · intro h
              have hr : r0 = r := by simpa using h
              subst hr
              refine ⟨List.mem_cons_self r0 rest, hnd, ?_⟩
              intro r2 hr2 _
              rcases List.mem_cons.mp hr2 with h2 | h2
              · subst h2; exact le_rfl
              · exact le_of_lt (hs0 r2 h2)
            · rintro ⟨hmem, hdup, hmin⟩
              rcases List.mem_cons.mp hmem with h2 | h2
              · subst h2; rfl
              · have h1 : r.id ≤ r0.id := hmin r0 (List.mem_cons_self r0 rest) hnd
                have h2id : r0.id < r.id := hs0 r h2
                omega
          · rw [hstep]
            constructor
            · intro h
              cases h
            · intro hall
              have := hall r0 (List.mem_cons_self r0 rest)
              rw [hnd] at this
              cases this

theorem findFirstNearDup_mem (ph : String) (t : Nat) (l : List RenditionRow)
    (r : RenditionRow) (h : findFirstNearDup ph t l = .ok (some r)) : r ∈ l := by
  induction l with
  | nil => simp [findFirstNearDup] at h
  | cons r0 rest ih =>
      rw [show findFirstNearDup ph t (r0 :: rest) =
          match is_near_duplicate ph r0.phash t with
          | none => .error (.valueError "invalid literal for int() with base 16")
          | some true => .ok (some r0)
          | some false => findFirstNearDup ph t rest from rfl] at h
      rcases hnd : is_near_duplicate ph r0.phash t with _ | b
      · rw [hnd] at h
        cases h
      · rw [hnd] at h
        cases b
        · exact List.mem_cons_of_mem _ (ih h)
        · have hr : r0 = r := by simpa using h
          subst hr
          exact List.mem_cons_self r0 rest

/-! ### Claim C3 -/

/-- **C3.** For a database whose renditions are in ascending-id order (as a
full-table scan returns them) with parseable stored hashes, the reuse
candidate chosen for a preset and a new asset is exactly the first rendition
— the one of least id — among the renditions of that preset owned by a
different asset whose `is_near_duplicate` test passes (equivalently, by
`is_near_duplicate_iff_le`, whose hamming distance to the new asset's hash
is ≤ the threshold); no distance-minimising search happens, and the result
is none exactly when every candidate is over the threshold. -/
theorem claim_C3_reuse_scan_first_match (db : DB) (preset_name : String)
    (assetId : Nat) (ph : String)
    (hsort : db.renditions.Pairwise (fun a b => a.id < b.id))
    (hvalid : ∀ r ∈ db.renditions, (hexToNat? r.phash).isSome)
    (hph : (hexToNat? ph).isSome) :
    (∀ r, findReuseRendition db preset_name assetId ph = .ok (some r) ↔
        (r ∈ db.renditions.filter (fun x => x.preset == preset_name && x.asset_id != assetId) ∧
          is_near_duplicate ph r.phash PHASH_HAMMING_THRESHOLD = some true ∧
          ∀ r2 ∈ db.renditions.filter
              (fun x => x.preset == preset_name && x.asset_id != assetId),
            is_near_duplicate ph r2.phash PHASH_HAMMING_THRESHOLD = some true →
              r.id ≤ r2.id))
    ∧ (findReuseRendition db preset_name assetId ph = .ok none ↔
        ∀ r ∈ db.renditions.filter
            (fun x => x.preset == preset_name && x.asset_id != assetId),
          is_near_duplicate ph r.phash PHASH_HAMMING_THRESHOLD = some false)
    ∧ (∀ (r : RenditionRow) (d : Nat), hamming_distance ph r.phash = some d →
        (is_near_duplicate ph r.phash PHASH_HAMMING_THRESHOLD = some true ↔
          d ≤ PHASH_HAMMING_THRESHOLD)) := by
  have hs2 : (db.renditions.filter
      (fun x => x.preset == preset_name && x.asset_id != assetId)).Pairwise
      (fun a b => a.id < b.id) :=
    List.Pairwise.sublist (List.filter_sublist _) hsort
  have hv2 : ∀ r ∈ db.renditions.filter
      (fun x => x.preset == preset_name && x.asset_id != assetId),
      is_near_duplicate ph r.phash PHASH_HAMMING_THRESHOLD ≠ none := by
    intro r hr
    exact is_near_duplicate_ne_none ph r.phash PHASH_HAMMING_THRESHOLD hph
      (hvalid r (List.mem_of_mem_filter hr))
  obtain ⟨h1, h2⟩ := findFirstNearDup_spec ph PHASH_HAMMING_THRESHOLD _ hs2 hv2
  exact ⟨h1, h2, fun r d hd => is_near_duplicate_iff_le ph r.phash _ d hd⟩

/-- Witness for C3: against `dbW` (candidate id 1 at distance 2, candidate
id 2 at distance 0) the scan picks id 1 — the first under threshold, not the
closest. -/
theorem claim_C3_reuse_scan_first_match_witness :
    findReuseRendition dbW "thumb" 99 "0000000000000000" = .ok (some rendW1) := by
  have h := (claim_C3_reuse_scan_first_match dbW "thumb" 99 "0000000000000000"
    (by decide) (by decide) (by decide)).1 rendW1
  exact h.mpr ⟨by decide, by decide, by decide⟩

/-! ### Claim C4 -/

/-- **C4.** When the reuse scan finds a candidate for a preset, the new
`Rendition` row copies the candidate's storage URL, byte size, width, height
and quality verbatim (plus its hash), nothing is generated or written to
storage (the storage state is returned unchanged), and the two rows share
the same storage-location string. -/
theorem claim_C4_reuse_aliases_verbatim (env : Env) (image : Image)
    (ph ch : String) (assetId : Nat) (preset_name : String) (width height : Nat)
    (db : DB) (st : Storage) (r : RenditionRow)
    (hfind : findReuseRendition db preset_name assetId ph = .ok (some r)) :
    r ∈ db.renditions ∧
    processPreset env image ph ch assetId preset_name width height db st =
      .ok ({ db with
              renditions := db.renditions ++
                [{ id := db.nextRenditionId, asset_id := assetId,
                   preset := preset_name, url := r.url, size_bytes := r.size_bytes,
                   width := r.width, height := r.height, quality := r.quality,
                   phash := r.phash }],
              nextRenditionId := db.nextRenditionId + 1 }, st) := by
  constructor
  · exact List.mem_of_mem_filter (findFirstNearDup_mem _ _ _ _ hfind)
  · simp [processPreset, hfind]

/-- Witness for C4 at the concrete fixture: the new row aliases rendition 1's
URL and no storage write happens. -/
theorem claim_C4_reuse_aliases_verbatim_witness :
    rendW1 ∈ dbW.renditions ∧
    processPreset envW ⟨1, 1, [7]⟩ "0000000000000000" "cafe" 99 "thumb" 200 200 dbW stP =
      .ok ({ dbW with
              renditions := dbW.renditions ++
                [{ id := dbW.nextRenditionId, asset_id := 99,
                   preset := "thumb", url := rendW1.url, size_bytes := rendW1.size_bytes,
                   width := rendW1.width, height := rendW1.height,
                   quality := rendW1.quality, phash := rendW1.phash }],
              nextRenditionId := dbW.nextRenditionId + 1 }, stP) :=
  claim_C4_reuse_aliases_verbatim envW ⟨1, 1, [7]⟩ "0000000000000000" "cafe" 99 "thumb"
    200 200 dbW stP rendW1 (by decide)

/-! ### Claim C8 -/

/-- **C8.** Purge with `dry_run = true` never mutates: it returns the
candidate hashes with `deleted_count = 0` and both the database and storage
unchanged (the token is not even checked).  Purge with `dry_run = false` and
a missing, empty or wrong confirmation token fails with a 400 client error
and leaves every row and storage object unchanged. -/
theorem claim_C8_dry_run_and_bad_token (request : PurgeRequest) (db : DB) (st : Storage) :
    (request.dry_run = true →
      purge_assets request db st =
        (.ok ⟨true, (db.assets.filter (fun a => a.in_use_count == 0)).map
            (fun a => a.content_hash), 0⟩, db, st))
    ∧ (request.dry_run = false → validPurgeToken request.confirm_token = false →
      purge_assets request db st =
        (.error (.http 400
          "confirm_token required and must match configured token for destructive operations"),
          db, st)) := by
  constructor
  · intro hd
    simp [purge_assets, hd]
  · intro hd ht
    simp [purge_assets, hd, ht]

/-- Witness for C8 on the two-asset fixture, for a dry run and for a wrong
token. -/
theorem claim_C8_dry_run_and_bad_token_witness :
    purge_assets ⟨true, none⟩ dbP stP =
      (.ok ⟨true, (dbP.assets.filter (fun a => a.in_use_count == 0)).map
          (fun a => a.content_hash), 0⟩, dbP, stP) ∧
    purge_assets ⟨false, some "WRONG"⟩ dbP stP =
      (.error (.http 400
        "confirm_token required and must match configured token for destructive operations"),
        dbP, stP) :=
  ⟨(claim_C8_dry_run_and_bad_token ⟨true, none⟩ dbP stP).1 rfl,
    (claim_C8_dry_run_and_bad_token ⟨false, some "WRONG"⟩ dbP stP).2 rfl (by decide)⟩

/-! ### Claim C7 -/

/-- **C7 is violated by the code (code bug); this theorem exhibits the
divergence.**  Purge with the valid confirmation token and `dry_run = false`
never manages to delete anything when there is something to delete: as soon
as at least one zero-count candidate exists, the first loop iteration's
`asset.renditions` access raises `MissingGreenlet` (see `purgeLoop`) before
any storage or row deletion, and the request surfaces an unhandled server
error with the database and the storage returned unchanged — instead of
deleting exactly the zero-count assets together with their rendition rows,
as the claim, the endpoint's own docstring ("Purge unused assets") and the
repository's purge test intend.  With no candidates it trivially returns
`deleted_count = 0`. -/
theorem claim_C7_purge_lazy_load_error (db : DB) (st : Storage) :
    (db.assets.filter (fun a => a.in_use_count == 0) ≠ [] →
      purge_assets ⟨false, some PURGE_CONFIRM_TOKEN⟩ db st =
        (.error (.missingGreenlet
          "greenlet_spawn has not been called; IO attempted in an unexpected place"),
          db, st))
    ∧ (db.assets.filter (fun a => a.in_use_count == 0) = [] →
      purge_assets ⟨false, some PURGE_CONFIRM_TOKEN⟩ db st =
        (.ok ⟨false, [], 0⟩, db, st)) := by
  constructor
  · intro hne
    rcases hc : db.assets.filter (fun a => a.in_use_count == 0) with _ | ⟨c, rest⟩
    · exact absurd hc hne
    · simp [purge_assets, validPurgeToken, hc, purgeLoop]
  · intro he
    simp [purge_assets, validPurgeToken, he, purgeLoop]

/-- Witness for C7: against the two-asset fixture (one zero-count
candidate), the valid-token non-dry-run purge errors out and deletes
nothing. -/
theorem claim_C7_purge_lazy_load_error_witness :
    purge_assets ⟨false, some PURGE_CONFIRM_TOKEN⟩ dbP stP =
      (.error (.missingGreenlet
        "greenlet_spawn has not been called; IO attempted in an unexpected place"),
        dbP, stP) :=
  (claim_C7_purge_lazy_load_error dbP stP).1 (by decide)

/-! ### upload_image: helper lemmas -/

/-- The exact-match short circuit: when an asset with the upload's content
hash exists, `upload_image` returns it (with its renditions) and leaves both
the database and the storage untouched. -/
theorem upload_image_existing (env : Env) (tenant filename : String)
    (file_bytes : List Nat) (db : DB) (st : Storage) (a : AssetRow)
    (hsize : ¬ MAX_UPLOAD_BYTES < file_bytes.length)
    (hfound : findAssetByHash db (env.contentHash file_bytes) = some a) :
    upload_image env tenant file_bytes filename db st =
      (.ok (mkAssetOut a (renditionsOf db a.id)), db, st) := by
  simp only [upload_image, if_neg hsize]
  rw [hfound]
  rfl

theorem get_or_create_tenant_fields (db : DB) (tname : String) :
    (get_or_create_tenant db tname).2.assets = db.assets ∧
    (get_or_create_tenant db tname).2.renditions = db.renditions ∧
    (get_or_create_tenant db tname).2.nextAssetId = db.nextAssetId ∧
    (get_or_create_tenant db tname).2.nextRenditionId = db.nextRenditionId := by
  rcases h : db.tenants.find? (fun t => t.name == tname) with _ | t <;>
    simp [get_or_create_tenant, h]

theorem findFirstNearDup_total (ph : String) (t : Nat) (l : List RenditionRow)
    (hv : ∀ r ∈ l, is_near_duplicate ph r.phash t ≠ none) :
    ∃ o, findFirstNearDup ph t l = .ok o := by
  induction l with
  | nil => exact ⟨none, rfl⟩
  | cons r0 rest ih =>
      rcases hnd : is_near_duplicate ph r0.phash t with _ | b
      · exact absurd hnd (hv r0 (List.mem_cons_self r0 rest))
      · cases b
        · have := ih (fun r hr => hv r (List.mem_cons_of_mem _ hr))
          obtain ⟨o, ho⟩ := this
          exact ⟨o, by simp [findFirstNearDup, hnd, ho]⟩
        · exact ⟨some r0, by simp [findFirstNearDup, hnd]⟩

/-- The computed perceptual hash always parses back as hex. -/
theorem compute_phash_isSome (env : Env) (image : Image) :
    (hexToNat? (compute_phash env image)).isSome = true := by
  rw [compute_phash, hexToNat?_compute_phash]
  rfl

/-- One loop iteration succeeds and only appends one rendition row (with a
parseable hash), provided the stored hashes parse and the freshly encoded
rendition bytes decode. -/
theorem processPreset_ok (env : Env) (image : Image) (ph ch : String)
    (assetId : Nat) (pname : String) (w h : Nat) (db : DB) (st : Storage)
    (hph : (hexToNat? ph).isSome = true)
    (hv : ∀ r ∈ db.renditions, (hexToNat? r.phash).isSome = true)
    (hgen : (env.decode (env.genRendition image pname w h 85).1).isSome = true) :
    ∃ rend st2, processPreset env image ph ch assetId pname w h db st =
        .ok (addRendition db rend, st2) ∧
      (hexToNat? rend.phash).isSome = true ∧ rend.asset_id = assetId := by
  have hv2 : ∀ r ∈ db.renditions.filter
      (fun x => x.preset == pname && x.asset_id != assetId),
      is_near_duplicate ph r.phash PHASH_HAMMING_THRESHOLD ≠ none := by
    intro r hr
    exact is_near_duplicate_ne_none ph r.phash PHASH_HAMMING_THRESHOLD hph
      (hv r (List.mem_of_mem_filter hr))
  obtain ⟨o, ho⟩ := findFirstNearDup_total ph PHASH_HAMMING_THRESHOLD _ hv2
  have ho2 : findReuseRendition db pname assetId ph = .ok o := ho
  rcases o with _ | reuse
  · -- no candidate: generate, hash, store
    obtain ⟨ri, hri⟩ := Option.isSome_iff_exists.mp hgen
    refine ⟨⟨db.nextRenditionId, assetId, pname,
        "renditions/" ++ String.mk (ch.data.take 8) ++ "/" ++ pname ++ ".jpg",
        (env.genRendition image pname w h 85).1.length,
        (env.genRendition image pname w h 85).2.1,
        (env.genRendition image pname w h 85).2.2, 85, compute_phash env ri⟩,
      (storageSave st ("renditions/" ++ String.mk (ch.data.take 8) ++ "/" ++ pname ++ ".jpg")
        (env.genRendition image pname w h 85).1).2, ?_, ?_, rfl⟩
    · simp only [processPreset, ho2, hri]
      rfl
    · exact compute_phash_isSome env ri
  · -- candidate found: alias it
    refine ⟨⟨db.nextRenditionId, assetId, pname, reuse.url, reuse.size_bytes,
        reuse.width, reuse.height, reuse.quality, reuse.phash⟩, st, ?_, ?_, rfl⟩
    · simp only [processPreset, ho2]
      rfl
    · exact hv reuse (List.mem_of_mem_filter (findFirstNearDup_mem _ _ _ _ ho))

/-- The whole per-preset loop succeeds under the same conditions, touching
only the rendition table (and the storage) and keeping all stored hashes
parseable. -/
theorem renditionLoop_ok (env : Env) (image : Image) (ph ch : String)
    (assetId : Nat) (hph : (hexToNat? ph).isSome = true)
    (hgen : ∀ pname w h, (env.decode (env.genRendition image pname w h 85).1).isSome = true) :
    ∀ (presets : List (String × Nat × Nat)) (db : DB) (st : Storage),
      (∀ r ∈ db.renditions, (hexToNat? r.phash).isSome = true) →
      ∃ db2 st2, renditionLoop env image ph ch assetId presets db st = (.ok db2, st2) ∧
        db2.assets = db.assets ∧ db2.tenants = db.tenants ∧
        db2.nextAssetId = db.nextAssetId ∧ db2.nextTenantId = db.nextTenantId ∧
        (∀ r ∈ db2.renditions, (hexToNat? r.phash).isSome = true) := by
  intro presets
  induction presets with
  | nil =>
      intro db st hv
      exact ⟨db, st, rfl, rfl, rfl, rfl, rfl, hv⟩
  | cons p rest ih =>
      intro db st hv
      obtain ⟨pname, w, h⟩ := p
      obtain ⟨rend, st2, hstep, hrph, _⟩ :=
        processPreset_ok env image ph ch assetId pname w h db st hph hv (hgen pname w h)
      have hv2 : ∀ r ∈ (addRendition db rend).renditions,
          (hexToNat? r.phash).isSome = true := by
        intro r hr
        rcases List.mem_append.mp hr with h1 | h1
        · exact hv r h1
        · rw [List.mem_singleton.mp h1]
          exact hrph
      obtain ⟨db2, st3, hloop, ha, ht, hna, hnt, hv3⟩ := ih _ st2 hv2
      refine ⟨db2, st3, ?_, ha, ht, hna, hnt, hv3⟩
      rw [show renditionLoop env image ph ch assetId ((pname, w, h) :: rest) db st =
          match processPreset env image ph ch assetId pname w h db st with
          | (.error e) => (.error e, st)
          | (.ok (dbx, stx)) => renditionLoop env image ph ch assetId rest dbx stx from rfl]
      rw [hstep]
      exact hloop

/-- A fresh upload (no exact match, decodable payload) creates exactly one
asset row carrying the upload's content hash, runs the rendition loop and
returns the new asset. -/
theorem upload_image_fresh (env : Env) (tenant filename : String)
    (file_bytes : List Nat) (db : DB) (st : Storage) (image : Image)
    (hsize : ¬ MAX_UPLOAD_BYTES < file_bytes.length)
    (hnone : findAssetByHash db (env.contentHash file_bytes) = none)
    (hdec : env.decode file_bytes = some image)
    (hgen : ∀ pname w h, (env.decode (env.genRendition image pname w h 85).1).isSome = true)
    (hv : ∀ r ∈ db.renditions, (hexToNat? r.phash).isSome = true) :
    ∃ row db3 st3,
      upload_image env tenant file_bytes filename db st =
        (.ok (mkAssetOut row (renditionsOf db3 row.id)), db3, st3) ∧
      row.content_hash = env.contentHash file_bytes ∧
      db3.assets = db.assets ++ [row] ∧
      db3.tenants = (get_or_create_tenant db tenant).2.tenants ∧
      (∀ r ∈ db3.renditions, (hexToNat? r.phash).isSome = true) := by
  rcases hten : get_or_create_tenant db tenant with ⟨tenant_obj, db1⟩
  have hfields := get_or_create_tenant_fields db tenant
  rw [hten] at hfields
  have hta : db1.assets = db.assets := hfields.1
  have htr : db1.renditions = db.renditions := hfields.2.1
  have hany : db1.assets.any
      (fun a => a.content_hash ==
        (newAssetRow (env.contentHash file_bytes) filename file_bytes image
          (compute_phash env image) tenant_obj db1).content_hash) = false := by
    rw [List.any_eq_false]
    intro a ha
    rw [hta] at ha
    have := List.find?_eq_none.mp hnone a ha
    simpa [newAssetRow] using this
  have hcommit : commitNewAsset db1
      (newAssetRow (env.contentHash file_bytes) filename file_bytes image
        (compute_phash env image) tenant_obj db1) =
      .ok (insertAssetRow db1
        (newAssetRow (env.contentHash file_bytes) filename file_bytes image
          (compute_phash env image) tenant_obj db1)) := by
    rw [commitNewAsset, hany]
    rfl
  have hv2 : ∀ r ∈ (insertAssetRow db1
      (newAssetRow (env.contentHash file_bytes) filename file_bytes image
        (compute_phash env image) tenant_obj db1)).renditions,
      (hexToNat? r.phash).isSome = true := by
    intro r hr
    rw [show (insertAssetRow db1
        (newAssetRow (env.contentHash file_bytes) filename file_bytes image
          (compute_phash env image) tenant_obj db1)).renditions = db1.renditions
      from rfl, htr] at hr
    exact hv r hr
  obtain ⟨db3, st3, hloop, ha3, ht3, _, _, hv3⟩ :=
    renditionLoop_ok env image (compute_phash env image) (env.contentHash file_bytes)
      (newAssetRow (env.contentHash file_bytes) filename file_bytes image
        (compute_phash env image) tenant_obj db1).id
      (compute_phash_isSome env image) hgen PRESETS
      (insertAssetRow db1
        (newAssetRow (env.contentHash file_bytes) filename file_bytes image
          (compute_phash env image) tenant_obj db1)) st hv2
  refine ⟨newAssetRow (env.contentHash file_bytes) filename file_bytes image
      (compute_phash env image) tenant_obj db1, db3, st3, ?_, rfl, ?_, ?_, hv3⟩
  · have h1 : upload_image env tenant file_bytes filename db st =
        upload_image_fresh_path env tenant filename file_bytes
          (env.contentHash file_bytes) image db st := by
      simp only [upload_image, if_neg hsize]
      rw [hnone]
      simp only [upload_image_body, hdec]
    rw [h1]
    simp only [upload_image_fresh_path, hten]
    rw [hcommit]
    simp only
    rw [hloop]
  · rw [ha3]
    rw [show (insertAssetRow db1
        (newAssetRow (env.contentHash file_bytes) filename file_bytes image
          (compute_phash env image) tenant_obj db1)).assets = db1.assets ++
        [newAssetRow (env.contentHash file_bytes) filename file_bytes image
          (compute_phash env image) tenant_obj db1] from rfl, hta]
  · rw [ht3]
    rfl

/-! ### Claim C9 -/

/-- **C9.** An oversized upload is rejected with 413 before anything else —
in particular before decoding is even attempted (the first conjunct needs no
assumption about decodability) — and an upload that is within the size limit
but fails to decode is rejected with 400; in both cases the returned state
is exactly the incoming one: no tenant, asset or rendition row and no
storage write. -/
theorem claim_C9_client_errors_before_persistence (env : Env)
    (tenant filename : String) (file_bytes : List Nat) (db : DB) (st : Storage) :
    (MAX_UPLOAD_BYTES < file_bytes.length →
      upload_image env tenant file_bytes filename db st =
        (.error (.http 413 "File size exceeds maximum of 10485760 bytes"), db, st))
    ∧ (file_bytes.length ≤ MAX_UPLOAD_BYTES →
       findAssetByHash db (env.contentHash file_bytes) = none →
       env.decode file_bytes = none →
      upload_image env tenant file_bytes filename db st =
        (.error (.http 400 "Invalid image file"), db, st)) := by
  constructor
  · intro h
    rw [upload_image, if_pos h]
  · intro h1 h2 h3
    simp only [upload_image, if_neg (by omega : ¬ MAX_UPLOAD_BYTES < file_bytes.length)]
    rw [h2]
    simp only [upload_image_body, h3]

/-- Witness for C9: a payload one byte over the 10 MiB limit gets 413 with
untouched state, and an empty (undecodable) payload gets 400 with untouched
state. -/
theorem claim_C9_client_errors_before_persistence_witness :
    upload_image envW "t1" (List.replicate 10485761 0) "big.jpg" dbE stE =
      (.error (.http 413 "File size exceeds maximum of 10485760 bytes"), dbE, stE) ∧
    upload_image envW "t1" [] "empty.jpg" dbE stE =
      (.error (.http 400 "Invalid image file"), dbE, stE) :=
  ⟨(claim_C9_client_errors_before_persistence envW "t1" "big.jpg"
      (List.replicate 10485761 0) dbE stE).1
        (by rw [List.length_replicate]; norm_num [MAX_UPLOAD_BYTES]),
    (claim_C9_client_errors_before_persistence envW "t1" "empty.jpg" [] dbE stE).2
      (by norm_num [MAX_UPLOAD_BYTES]) rfl rfl⟩

/-! ### Claim C1 -/

/-- **C1.** If an asset row already exists for the upload's content hash,
`upload_image` returns that stored asset together with its stored renditions
and stops: the returned database and storage are exactly the incoming ones
(no tenant/asset/rendition row, no storage write, and the returned data —
including the stored perceptual hash — is the persisted row, with nothing
recomputed).  Consequently uploading the same bytes twice in sequence
creates exactly one asset row for that hash, the second call changes
nothing, and both calls return the same asset id. -/
theorem claim_C1_upload_idempotent (env : Env) (tenant filename : String)
    (file_bytes : List Nat) (db : DB) (st : Storage) :
    (∀ a, file_bytes.length ≤ MAX_UPLOAD_BYTES →
      findAssetByHash db (env.contentHash file_bytes) = some a →
      upload_image env tenant file_bytes filename db st =
        (.ok (mkAssetOut a (renditionsOf db a.id)), db, st))
    ∧ (file_bytes.length ≤ MAX_UPLOAD_BYTES →
      findAssetByHash db (env.contentHash file_bytes) = none →
      ∀ image, env.decode file_bytes = some image →
      (∀ pname w h, (env.decode (env.genRendition image pname w h 85).1).isSome = true) →
      (∀ r ∈ db.renditions, (hexToNat? r.phash).isSome = true) →
      ∃ out1 db1 st1 out2,
        upload_image env tenant file_bytes filename db st = (.ok out1, db1, st1) ∧
        upload_image env tenant file_bytes filename db1 st1 = (.ok out2, db1, st1) ∧
        out2.id = out1.id ∧
        db1.assets.countP
          (fun a => a.content_hash == env.contentHash file_bytes) = 1) := by
  constructor
  · intro a hsize hfound
    exact upload_image_existing env tenant filename file_bytes db st a (by omega) hfound
  · intro hsize hnone image hdec hgen hv
    obtain ⟨row, db3, st3, hup, hch, ha3, _, _⟩ :=
      upload_image_fresh env tenant filename file_bytes db st image (by omega)
        hnone hdec hgen hv
    have hfind3 : findAssetByHash db3 (env.contentHash file_bytes) = some row := by
      rw [findAssetByHash] at hnone ⊢
      rw [ha3, List.find?_append, hnone]
      have hp : (fun a => a.content_hash == env.contentHash file_bytes) row = true := by
        simp [hch]
      rw [Option.none_or]
      exact List.find?_cons_of_pos _ hp
    have h2 := upload_image_existing env tenant filename file_bytes db3 st3 row
      (by omega) hfind3
    refine ⟨mkAssetOut row (renditionsOf db3 row.id), db3, st3,
      mkAssetOut row (renditionsOf db3 row.id), hup, h2, rfl, ?_⟩
    rw [ha3, List.countP_append]
    have hc0 : db.assets.countP
        (fun a => a.content_hash == env.contentHash file_bytes) = 0 := by
      rw [List.countP_eq_zero]
      intro a ha
      have := List.find?_eq_none.mp hnone a ha
      simpa using this
    rw [hc0]
    simp [List.countP_cons, hch]

/-- Witness for C1: on an empty database, uploading the byte payload `[7]`
twice returns the same asset id, leaves state unchanged on the second call,
and there is exactly one asset row for its content hash. -/
theorem claim_C1_upload_idempotent_witness :
    ∃ out1 db1 st1 out2,
      upload_image envW "t1" [7] "x.jpg" dbE stE = (.ok out1, db1, st1) ∧
      upload_image envW "t1" [7] "x.jpg" db1 st1 = (.ok out2, db1, st1) ∧
      out2.id = out1.id ∧
      db1.assets.countP (fun a => a.content_hash == envW.contentHash [7]) = 1 :=
  (claim_C1_upload_idempotent envW "t1" "x.jpg" [7] dbE stE).2
    (by norm_num [MAX_UPLOAD_BYTES]) rfl ⟨1, 1, [7]⟩ rfl
    (fun _pname _w _h => rfl) (by intro r hr; cases hr)

/-! ### Claim C2 -/

/-- **C2 is violated by the code (code bug); this theorem exhibits the
divergence.**  When two concurrent uploads of identical bytes both pass the
exact-match check (both `SELECT`s see no asset, modelled by both bodies
running with `existing = none`), the first to commit wins; the loser's
`INSERT` then violates the `content_hash` unique constraint, and since
`upload_image` has no handler for that failure, the loser surfaces an
unhandled `IntegrityError` — it does **not** fetch and return the
now-existing asset as the spec requires. -/
theorem claim_C2_duplicate_race_unhandled (env : Env) (tenant filename : String)
    (file_bytes : List Nat) (db : DB) (st : Storage)
    (hsize : file_bytes.length ≤ MAX_UPLOAD_BYTES)
    (hnone : findAssetByHash db (env.contentHash file_bytes) = none)
    (image : Image) (hdec : env.decode file_bytes = some image)
    (hgen : ∀ pname w h, (env.decode (env.genRendition image pname w h 85).1).isSome = true)
    (hv : ∀ r ∈ db.renditions, (hexToNat? r.phash).isSome = true) :
    ∃ out1 db1 st1,
      upload_image env tenant file_bytes filename db st = (.ok out1, db1, st1) ∧
      ∃ db2,
        upload_image_body env tenant file_bytes filename (env.contentHash file_bytes)
          none db1 st1 =
        (.error (.integrityError "UNIQUE constraint failed: assets.content_hash"),
          db2, st1) := by
  obtain ⟨row, db3, st3, hup, hch, ha3, _, _⟩ :=
    upload_image_fresh env tenant filename file_bytes db st image (by omega)
      hnone hdec hgen hv
  refine ⟨mkAssetOut row (renditionsOf db3 row.id), db3, st3, hup, ?_⟩
  rcases hten2 : get_or_create_tenant db3 tenant with ⟨t2, db4⟩
  have hfields := get_or_create_tenant_fields db3 tenant
  rw [hten2] at hfields
  have hta4 : db4.assets = db3.assets := hfields.1
  have hany : db4.assets.any
      (fun a => a.content_hash ==
        (newAssetRow (env.contentHash file_bytes) filename file_bytes image
          (compute_phash env image) t2 db4).content_hash) = true := by
    rw [hta4, ha3, List.any_eq_true]
    refine ⟨row, List.mem_append.mpr (Or.inr (List.mem_singleton.mpr rfl)), ?_⟩
    simp [newAssetRow, hch]
  have hcommit : commitNewAsset db4
      (newAssetRow (env.contentHash file_bytes) filename file_bytes image
        (compute_phash env image) t2 db4) =
      .error (.integrityError "UNIQUE constraint failed: assets.content_hash") := by
    rw [commitNewAsset, hany]
    rfl
  refine ⟨db4, ?_⟩
  simp only [upload_image_body, hdec, upload_image_fresh_path, hten2]
  rw [hcommit]

/-- Witness for C2: on an empty database, after the winner's upload of `[7]`
commits, replaying the loser's post-check continuation ends in the unhandled
unique-constraint error. -/
theorem claim_C2_duplicate_race_unhandled_witness :
    ∃ out1 db1 st1,
      upload_image envW "t1" [7] "x.jpg" dbE stE = (.ok out1, db1, st1) ∧
      ∃ db2,
        upload_image_body envW "t1" [7] "x.jpg" (envW.contentHash [7])
          none db1 st1 =
        (.error (.integrityError "UNIQUE constraint failed: assets.content_hash"),
          db2, st1) :=
  claim_C2_duplicate_race_unhandled envW "t1" "x.jpg" [7] dbE stE
    (by norm_num [MAX_UPLOAD_BYTES]) rfl ⟨1, 1, [7]⟩ rfl
    (fun _pname _w _h => rfl) (by intro r hr; cases hr)

/-! ### Reachability of the primary-key hypotheses

C3 assumes the rendition table is in ascending-id order; asset ids are
likewise duplicate-free.  Both invariants hold in the empty database and are
preserved by every `upload_image` call (on every control path, including the
error paths), so they hold in every reachable state. -/

theorem addRendition_invariant (db : DB) (rend : RenditionRow)
    (hid : rend.id = db.nextRenditionId) (hinv : rendInvariant db) :
    rendInvariant (addRendition db rend) := by
  obtain ⟨hb, hs⟩ := hinv
  constructor
  · intro r hr
    rcases List.mem_append.mp hr with h1 | h1
    · have := hb r h1
      simp only [addRendition]
      omega
    · rw [List.mem_singleton.mp h1, hid]
      simp [addRendition]
  · refine List.pairwise_append.mpr ⟨hs, List.pairwise_singleton _ _, ?_⟩
    intro a haa b hbb
    rw [List.mem_singleton.mp hbb, hid]
    exact hb a haa

theorem insertAssetRow_invariant (db : DB) (row : AssetRow)
    (hid : row.id = db.nextAssetId) (hinv : assetInvariant db) :
    assetInvariant (insertAssetRow db row) := by
  obtain ⟨hb, hnd⟩ := hinv
  constructor
  · intro a ha
    rcases List.mem_append.mp ha with h1 | h1
    · have := hb a h1
      simp only [insertAssetRow]
      omega
    · rw [List.mem_singleton.mp h1, hid]
      simp [insertAssetRow]
  · show ((db.assets ++ [row]).map (fun a => a.id)).Nodup
    rw [List.map_append]
    rw [List.nodup_append]
    refine ⟨hnd, List.nodup_singleton _, ?_⟩
    intro x hx hx2
    rw [List.map_singleton, List.mem_singleton] at hx2
    subst hx2
    obtain ⟨a, haa, haid⟩ := List.mem_map.mp hx
    have := hb a haa
    omega

/-- Any successful `processPreset` step appends exactly one rendition row
carrying the next free rendition id. -/
theorem processPreset_shape (env : Env) (image : Image) (ph ch : String)
    (assetId : Nat) (pname : String) (w h : Nat) (db db2 : DB) (st st2 : Storage)
    (hok : processPreset env image ph ch assetId pname w h db st = .ok (db2, st2)) :
    ∃ rend, db2 = addRendition db rend ∧ rend.id = db.nextRenditionId := by
  rcases hfr : findReuseRendition db pname assetId ph with e | o
  · simp only [processPreset, hfr] at hok
    exact Except.noConfusion hok
  · rcases o with _ | reuse
    · rcases hdec2 : env.decode (env.genRendition image pname w h 85).1 with _ | ri
      · simp only [processPreset, hfr, hdec2] at hok
        exact Except.noConfusion hok
      · simp only [processPreset, hfr, hdec2] at hok
        have hpair := Except.ok.inj hok
        injection hpair with h1 h2
        exact ⟨_, h1.symm, rfl⟩
    · simp only [processPreset, hfr] at hok
      have hpair := Except.ok.inj hok
      injection hpair with h1 h2
      exact ⟨_, h1.symm, rfl⟩

/-- A successful rendition loop leaves the other tables and counters alone
and preserves the rendition-id invariant, on any inputs. -/
theorem renditionLoop_shape (env : Env) (image : Image) (ph ch : String)
    (assetId : Nat) :
    ∀ (presets : List (String × Nat × Nat)) (db db2 : DB) (st st2 : Storage),
      renditionLoop env image ph ch assetId presets db st = (.ok db2, st2) →
      db2.assets = db.assets ∧ db2.tenants = db.tenants ∧
      db2.nextAssetId = db.nextAssetId ∧
      (rendInvariant db → rendInvariant db2) := by
  intro presets
  induction presets with
  | nil =>
      intro db db2 st st2 hloop
      have h1 : (Except.ok db : Except UErr DB) = .ok db2 := congrArg Prod.fst hloop
      have h2 : db = db2 := Except.ok.inj h1
      subst h2
      exact ⟨rfl, rfl, rfl, fun hinv => hinv⟩
  | cons p rest ih =>
      intro db db2 st st2 hloop
      obtain ⟨pname, w, h⟩ := p
      rcases hstep : processPreset env image ph ch assetId pname w h db st with e | pr
      · rw [show renditionLoop env image ph ch assetId ((pname, w, h) :: rest) db st =
            match processPreset env image ph ch assetId pname w h db st with
            | (.error e) => (.error e, st)
            | (.ok (dbx, stx)) => renditionLoop env image ph ch assetId rest dbx stx
            from rfl, hstep] at hloop
        have := congrArg Prod.fst hloop
        simp at this
      · obtain ⟨dbx, stx⟩ := pr
        rw [show renditionLoop env image ph ch assetId ((pname, w, h) :: rest) db st =
            match processPreset env image ph ch assetId pname w h db st with
            | (.error e) => (.error e, st)
            | (.ok (dbx, stx)) => renditionLoop env image ph ch assetId rest dbx stx
            from rfl, hstep] at hloop
        obtain ⟨rend, hdbx, hrid⟩ :=
          processPreset_shape env image ph ch assetId pname w h db dbx st stx hstep
        subst hdbx
        obtain ⟨h1, h2, h3, h4⟩ := ih (addRendition db rend) db2 stx st2 hloop
        exact ⟨h1, h2, h3, fun hinv => h4 (addRendition_invariant db rend hrid hinv)⟩

/-- `upload_image` preserves both primary-key invariants on every control
path: the error paths return the state they received (or the state as of
the failed step), and the success path appends rows carrying the next free
ids. -/
theorem upload_image_preserves_key_invariants (env : Env)
    (tenant filename : String) (file_bytes : List Nat) (db : DB) (st : Storage)
    (hr : rendInvariant db) (ha : assetInvariant db) :
    rendInvariant (upload_image env tenant file_bytes filename db st).2.1 ∧
    assetInvariant (upload_image env tenant file_bytes filename db st).2.1 := by
  by_cases hsize : MAX_UPLOAD_BYTES < file_bytes.length
  · rw [upload_image, if_pos hsize]
    exact ⟨hr, ha⟩
  · simp only [upload_image, if_neg hsize]
    rcases hfind : findAssetByHash db (env.contentHash file_bytes) with _ | a
    · rcases hdec : env.decode file_bytes with _ | image
      · simp only [upload_image_body, hdec]
        exact ⟨hr, ha⟩
      · simp only [upload_image_body, hdec]
        rcases hten : get_or_create_tenant db tenant with ⟨t1, db1⟩
        have hfields := get_or_create_tenant_fields db tenant
        rw [hten] at hfields
        have hta : db1.assets = db.assets := hfields.1
        have htr2 : db1.renditions = db.renditions := hfields.2.1
        have htna : db1.nextAssetId = db.nextAssetId := hfields.2.2.1
        have htnr : db1.nextRenditionId = db.nextRenditionId := hfields.2.2.2
        have hr1 : rendInvariant db1 := by
          constructor
          · intro r hrr
            rw [htr2] at hrr
            rw [htnr]
            exact hr.1 r hrr
          · rw [rendInvariant] at hr
            rw [htr2]
            exact hr.2
        have ha1 : assetInvariant db1 := by
          constructor
          · intro a2 ha2
            rw [hta] at ha2
            rw [htna]
            exact ha.1 a2 ha2
          · rw [hta]
            exact ha.2
        simp only [upload_image_fresh_path, hten]
        rcases hcom : commitNewAsset db1
            (newAssetRow (env.contentHash file_bytes) filename file_bytes image
              (compute_phash env image) t1 db1) with e | db2
        · simp only [hcom]
          exact ⟨hr1, ha1⟩
        · have hdb2 : db2 = insertAssetRow db1
              (newAssetRow (env.contentHash file_bytes) filename file_bytes image
                (compute_phash env image) t1 db1) := by
            by_cases hany : db1.assets.any
                (fun a2 => a2.content_hash ==
                  (newAssetRow (env.contentHash file_bytes) filename file_bytes image
                    (compute_phash env image) t1 db1).content_hash) = true
            · rw [commitNewAsset, if_pos hany] at hcom
              cases hcom
            · rw [commitNewAsset, if_neg hany] at hcom
              exact (Except.ok.inj hcom).symm
          subst hdb2
          have ha2 : assetInvariant (insertAssetRow db1
              (newAssetRow (env.contentHash file_bytes) filename file_bytes image
                (compute_phash env image) t1 db1)) :=
            insertAssetRow_invariant db1 _ rfl ha1
          have hr2 : rendInvariant (insertAssetRow db1
              (newAssetRow (env.contentHash file_bytes) filename file_bytes image
                (compute_phash env image) t1 db1)) := hr1
          simp only [hcom]
          rcases hloop : renditionLoop env image (compute_phash env image)
              (env.contentHash file_bytes)
              (newAssetRow (env.contentHash file_bytes) filename file_bytes image
                (compute_phash env image) t1 db1).id PRESETS
              (insertAssetRow db1
                (newAssetRow (env.contentHash file_bytes) filename file_bytes image
                  (compute_phash env image) t1 db1)) st with ⟨eres, stx⟩
          rcases eres with e | db3
          · simp only [hloop]
            exact ⟨hr2, ha2⟩
          · simp only [hloop]
            obtain ⟨hassets, _, hnaid, hinv⟩ :=
              renditionLoop_shape env image (compute_phash env image)
                (env.contentHash file_bytes) _ PRESETS _ db3 st stx hloop
            refine ⟨hinv hr2, ?_, ?_⟩
            · intro a2 ha2m
              rw [hassets] at ha2m
              rw [hnaid]
              exact ha2.1 a2 ha2m
            · rw [hassets]
              exact ha2.2
    · exact ⟨hr, ha⟩

/-- Both primary-key invariants hold in the empty (freshly created)
database. -/
theorem dbE_invariants : rendInvariant dbE ∧ assetInvariant dbE := by
  constructor
  · constructor
    · intro r hrr
      cases hrr
    · exact List.Pairwise.nil
  · constructor
    · intro a haa
      cases haa
    · exact List.Pairwise.nil

end CatalogPipeline
